import Mathlib

/-!
Verification of the calendar sequence resolver of the Shabat_Shalom_Posts
repository (src/calendar_utils.py, src/hebcal_api.py, src/make_shabbat_posts.py).

Shallow embedding conventions:
* Gregorian dates are day numbers (`Int`); `timedelta(days=1)` is `+ 1`.
  Day number 0 is taken to be a Monday, so `weekday d = d % 7` matches
  Python's `date.weekday()` (Monday = 0, ..., Friday = 4, Saturday = 5).
* The external jewcal library is an oracle: a function from a date to the
  classified day (`CalendarDay`, mirroring `JewCal(gregorian_date=..,
  diaspora=False)`), or, with a location, to a `JDay` that also carries the
  optional zmanim dictionary.
* Python truthiness of an optional event name / time value is modelled as
  `Option.isSome` (the library never stores empty strings in these slots).
* The unbounded `while True` loops of `find_event_sequence` are given a
  fuel parameter; `none` means the fuel ran out before the loop finished.
-/

namespace Shabat

/-- Action strings stored by jewcal in `events.action`; the code only ever
tests membership in `["Candles", "Havdalah"]`. -/
inductive Action
  | Candles
  | Havdalah
deriving DecidableEq

/-- Result of classifying one Gregorian date with
`JewCal(gregorian_date=d, diaspora=False)`: `has_events()`, `events.action`,
`events.yomtov`, `events.shabbos`. -/
structure CalendarDay where
  hasEvents : Bool
  action : Option Action
  yomtov : Option String
  shabbos : Option String
deriving DecidableEq

/-- The repeated test
`jc.has_events() and jc.events.action in ["Candles", "Havdalah"]`. -/
def qualifying (c : CalendarDay) : Bool :=
  c.hasEvents && (decide (c.action = some Action.Candles) ||
    decide (c.action = some Action.Havdalah))

/-- One step of the event classification of the forward walk of
`find_event_sequence`: `if events.yomtov: ... elif events.shabbos: ...`,
keeping the previous `(main_event_type, main_event_name)` otherwise. -/
def classifyEvent (j : CalendarDay) (ty nm : Option String) :
    Option String × Option String :=
  match j.yomtov with
  | some y => (some ("yomtov"), some y)
  | none =>
    match j.shabbos with
    | some s => (some ("shabbos"), some s)
    | none => (ty, nm)

/-- Backward walk of `find_event_sequence` (calendar_utils.py lines 120-136):
returns the sequence start, walking to the previous day while it has a
qualifying action that is not Havdalah. -/
def seqStartWalk (cal : Int → CalendarDay) : Nat → Int → Option Int
  | 0, _ => none
  | fuel + 1, current =>
    let prev := current - 1
    let p := cal prev
    if qualifying p then
      if p.action = some Action.Havdalah then some current
      else seqStartWalk cal fuel prev
    else some current

/-- Forward walk of `find_event_sequence` (calendar_utils.py lines 139-171):
carries `sequence_end`, `main_event_type`, `main_event_name` and returns
their final values. -/
def seqEndWalk (cal : Int → CalendarDay) :
    Nat → Int → Int → Option String → Option String →
      Option (Int × Option String × Option String)
  | 0, _, _, _, _ => none
  | fuel + 1, current, seqEnd, ty, nm =>
    let j := cal current
    if j.hasEvents then
      let tn := classifyEvent j ty nm
      let nxt := cal (current + 1)
      if qualifying nxt then
        if j.action = some Action.Havdalah then some (current, tn.1, tn.2)
        else seqEndWalk cal fuel (current + 1) current tn.1 tn.2
      else some (current, tn.1, tn.2)
    else some (seqEnd, ty, nm)

/-- Embedding of `find_event_sequence(start_date)` (calendar_utils.py lines
108-173 and the identical copy in make_shabbat_posts.py lines 294-361).
Returns `(sequence_start, sequence_end, main_event_type, main_event_name)`,
or `none` when the fuel does not cover the loops. -/
def find_event_sequence (cal : Int → CalendarDay) (fuel : Nat)
    (start_date : Int) : Option (Int × Int × Option String × Option String) :=
  match seqStartWalk cal fuel start_date with
  | none => none
  | some s =>
    match seqEndWalk cal fuel start_date start_date none none with
    | none => none
    | some (e, ty, nm) => some (s, e, ty, nm)

/-- Python's `date.weekday()` on day numbers: day 0 is a Monday. -/
def weekday (d : Int) : Int := d % 7

/-- Embedding of `next_friday(d)` (calendar_utils.py lines 69-82).  The
implicit wall-clock read `datetime.now().hour` is the explicit parameter
`nowHour`. -/
def next_friday (nowHour : Int) (d : Int) : Int :=
  let days_ahead := (4 - weekday d) % 7
  let days_ahead2 := if days_ahead = 0 ∧ 12 ≤ nowHour then 7 else days_ahead
  d + days_ahead2

/-- The 14-day forward scan of `find_next_sequence`
(`for i in range(14): ...`), returning the first date whose day has a
qualifying action. -/
def scan14 (cal : Int → CalendarDay) : Nat → Int → Option Int
  | 0, _ => none
  | n + 1, d => if qualifying (cal d) then some d else scan14 cal n (d + 1)

/-- Embedding of `find_next_sequence(start_base)` (calendar_utils.py lines
176-197 and the identical copy in make_shabbat_posts.py). -/
def find_next_sequence (cal : Int → CalendarDay) (nowHour : Int) (fuel : Nat)
    (start_base : Int) : Option (Int × Int × Option String × Option String) :=
  match scan14 cal 14 start_base with
  | some d => find_event_sequence cal fuel d
  | none => find_event_sequence cal fuel (next_friday nowHour start_base)

/-- Concrete two-day calendar used to instantiate the theorems: day 0 is a
Friday-like Candles day, day 1 a Havdalah day, all other days empty. -/
def calDemo : Int → CalendarDay := fun d =>
  if d = 0 then ⟨true, some Action.Candles, none, some ("Shabbos")⟩
  else if d = 1 then ⟨true, some Action.Havdalah, none, some ("Shabbos")⟩
  else ⟨false, none, none, none⟩

/-- Relevant keys of `zmanim.to_dict()`.  Time values are opaque strings
(ISO timestamps in the code); Python truthiness of a present value is
modelled as presence. -/
structure Zmanim where
  hadlokas_haneiros : Option String
  tzeis_hakochavim : Option String
  tzeis_minutes : Option String
deriving DecidableEq

/-- The jewcal `Location` object, with the fields the code passes to its
constructor. -/
structure Location where
  latitude : Rat
  longitude : Rat
  use_tzeis_hakochavim : Bool
  hadlokas_haneiros_minutes : Int
  tzeis_minutes : Int
deriving DecidableEq

/-- A `JewCal` instance built with a location: the day classification plus
the optional `zmanim` attribute. -/
structure JDay where
  hasEvents : Bool
  action : Option Action
  yomtov : Option String
  shabbos : Option String
  zmanim : Option Zmanim
deriving DecidableEq

/-- The `Location(...)` construction of `_get_jewcal_with_location_cached`
(calendar_utils.py lines 53-59): stars-visible havdalah enabled and the
fixed-minutes fallback configured as 42. -/
def mkLocation (lat lon : Rat) (candle_offset : Int) : Location :=
  { latitude := lat,
    longitude := lon,
    use_tzeis_hakochavim := true,
    hadlokas_haneiros_minutes := candle_offset,
    tzeis_minutes := 42 }

/-- Helper for the substring test: does `needle` occur in the given
character list? -/
def subLoop (needle : List Char) : List Char → Bool
  | [] => needle.isEmpty
  | c :: rest => needle.isPrefixOf (c :: rest) || subLoop needle rest

/-- Python's substring test `needle in hay`. -/
def strContains (hay needle : String) : Bool :=
  subLoop needle.toList hay.toList

/-- Event extraction used by `jewcal_times_for_sequence` for the start and
the end day: `(event_type, event_name)`, Yom Tov preferred over Shabbos. -/
def classifyEventJ (j : JDay) : Option String × Option String :=
  if j.hasEvents then
    match j.yomtov with
    | some y => (some ("yomtov"), some y)
    | none =>
      match j.shabbos with
      | some s => (some ("shabbos"), some s)
      | none => (none, none)
  else (none, none)

/-- Candle-lighting extraction from one day:
`if jc.zmanim: ... if zd.get('hadlokas_haneiros'): ...`. -/
def candleFromDay (j : JDay) : Option String :=
  match j.zmanim with
  | none => none
  | some z =>
    match z.hadlokas_haneiros with
    | some t => some t
    | none => none

/-- Havdalah extraction from one day: the stars-visible value
`tzeis_hakochavim` if present, else the fixed-minutes value `tzeis_minutes`
if present, else nothing. -/
def havdalahFromDay (j : JDay) : Option String :=
  match j.zmanim with
  | none => none
  | some z =>
    match z.tzeis_hakochavim with
    | some t => some t
    | none =>
      match z.tzeis_minutes with
      | some t => some t
      | none => none

/-- Result dictionary of `jewcal_times_for_sequence`. -/
structure SeqResult where
  parsha : Option String
  event_name : Option String
  event_type : Option String
  candle : Option String
  havdalah : Option String
  start_date : Int
  end_date : Int
  action : Option Action
deriving DecidableEq

/-- Embedding of `jewcal_times_for_sequence(lat, lon, start_date, end_date,
candle_offset)` (calendar_utils.py lines 283-381; the copy in
make_shabbat_posts.py lines 386-490 builds the same `Location` inline).
The jewcal library is the oracle `jewcalAt`; the imported
`get_parsha_from_hebcal` is the oracle `get_parsha`. -/
def jewcal_times_for_sequence (jewcalAt : Int → Location → JDay)
    (get_parsha : Int → Option String) (lat lon : Rat)
    (start_date end_date : Int) (candle_offset : Int) : SeqResult :=
  let loc := mkLocation lat lon candle_offset
  let start_jewcal := jewcalAt start_date loc
  let candle_time : Option String :=
    match start_jewcal.zmanim with
    | none => none
    | some z =>
      match z.hadlokas_haneiros with
      | some t => some t
      | none => none
  let end_jewcal := jewcalAt end_date loc
  let havdalah_time : Option String :=
    match end_jewcal.zmanim with
    | none => none
    | some z =>
      match z.tzeis_hakochavim with
      | some t => some t
      | none =>
        match z.tzeis_minutes with
        | some t => some t
        | none => none
  let startEv := classifyEventJ start_jewcal
  let endEv := classifyEventJ end_jewcal
  let ev : Option String × Option String :=
    match endEv.2 with
    | some n =>
      if strContains n ("Simchat Tora") || strContains n ("Shmini Atzeret") then
        endEv
      else startEv
    | none => startEv
  let parsha : Option String :=
    if ev.1 = some ("shabbos") ∨
        ((List.range (end_date - start_date + 1).toNat).any
          (fun i => decide (weekday (start_date + (i : Int)) = 5))) = true then
      get_parsha start_date
    else none
  { parsha := parsha,
    event_name := ev.2,
    event_type := ev.1,
    candle := candle_time,
    havdalah := havdalah_time,
    start_date := start_date,
    end_date := end_date,
    action := if start_jewcal.hasEvents then start_jewcal.action else none }

/-- Concrete with-location oracle for the witnesses: day 0 has Candles and a
full zmanim dictionary, day 1 has Havdalah with only the stars-visible and
fixed-minutes values, every other day is empty with no zmanim. -/
def jdemoA : Int → Location → JDay := fun d _ =>
  if d = 0 then
    ⟨true, some Action.Candles, none, some ("Shabbos"),
      some ⟨some ("c0"), some ("h0"), some ("m0")⟩⟩
  else if d = 1 then
    ⟨true, some Action.Havdalah, none, some ("Shabbos"),
      some ⟨none, some ("h1"), some ("m1")⟩⟩
  else ⟨false, none, none, none, none⟩

/-- Concrete with-location oracle for the event-source witness: the start
day has no events at all, the end day is Simchat Torah. -/
def jdemoB : Int → Location → JDay := fun d _ =>
  if d = 1 then
    ⟨true, some Action.Havdalah, some ("Simchat Tora"), none, none⟩
  else ⟨false, none, none, none, none⟩

/-- Degenerate parsha oracle used by the witnesses. -/
def parshaNone : Int → Option String := fun _ => none

/-- The apostrophe character, U+0027. -/
def apoChar : Char := Char.ofNat 39

/-- The apostrophe as a string, for building table keys. -/
def apoStr : String := String.singleton apoChar

/-- The right single quotation mark, U+2019. -/
def curlyRightChar : Char := Char.ofNat 8217

/-- The left single quotation mark, U+2018. -/
def curlyLeftChar : Char := Char.ofNat 8216

/-- Python's `str.lower()`: lowercase each character (all table keys are
ASCII). -/
def lowerStr (s : String) : String := String.mk (s.data.map Char.toLower)

/-- Python's `str.replace(c, "")` for a single-character pattern: dropping a
pattern of length one acts on each character independently, so it is the
filter that removes that character. -/
def removeChar (c : Char) (s : String) : String :=
  String.mk (s.data.filter (fun a => decide (¬ a = c)))

/-- Python's `str.replace(c1, c2)` for single-character pattern and
replacement: the map substituting that character. -/
def replaceChar (cfrom cto : Char) (s : String) : String :=
  String.mk (s.data.map (fun a => if a = cfrom then cto else a))

/-- The `PARASHA_TRANSLATION` table of make_shabbat_posts.py (lines 43-88),
in source order.  The Python dict literal repeats the key Ha'Azinu with the
same value; as an association list the duplicate is harmless because every
lookup used below returns the value of some entry with the looked-up key,
and entries sharing a key share their value. -/
def PARASHA_TRANSLATION : List (String × String) := [
  ("Bereshit", "בראשית"), ("Noach", "נח"), ("Lech-Lecha", "לך לך"),
  ("Vayera", "וירא"), ("Chayei Sara", "חיי שרה"), ("Toldot", "תולדות"),
  ("Vayetzei", "ויצא"), ("Vayishlach", "וישלח"), ("Vayeshev", "וישב"),
  ("Miketz", "מקץ"), ("Vayigash", "ויגש"), ("Vayechi", "ויחי"),
  ("Shemot", "שמות"), ("Vaera", "וארא"), ("Bo", "בא"),
  ("Beshalach", "בשלח"), ("Yitro", "יתרו"), ("Mishpatim", "משפטים"),
  ("Terumah", "תרומה"), ("Tetzaveh", "תצוה"), ("Ki Tisa", "כי תשא"),
  ("Vayakhel", "ויקהל"), ("Pekudei", "פקודי"),
  ("Vayikra", "ויקרא"), ("Tzav", "צו"), ("Shemini", "שמיני"),
  ("Shmini", "שמיני"), ("Tazria", "תזריע"), ("Metzora", "מצורע"),
  ("Achrei Mot", "אחרי מות"), ("Kedoshim", "קדושים"), ("Emor", "אמור"),
  ("Behar", "בהר"), ("Bechukotai", "בחוקותי"),
  ("Bamidbar", "במדבר"), ("Nasso", "נשא"),
  ("Beha" ++ apoStr ++ "alotcha", "בהעלותך"), ("Shelach", "שלח"),
  ("Korach", "קרח"), ("Chukat", "חוקת"), ("Balak", "בלק"),
  ("Pinchas", "פנחס"), ("Matot", "מטות"), ("Masei", "מסעי"),
  ("Devarim", "דברים"), ("Vaetchanan", "ואתחנן"), ("Ekev", "עקב"),
  ("Re" ++ apoStr ++ "eh", "ראה"), ("Shoftim", "שופטים"),
  ("Ki Tetzei", "כי תצא"), ("Ki Tavo", "כי תבוא"), ("Nitzavim", "נצבים"),
  ("Vayelech", "וילך"), ("Ha" ++ apoStr ++ "Azinu", "האזינו"),
  ("Vezot Haberakhah", "וזאת הברכה"),
  ("Lech Lecha", "לך לך"), ("Chayei Sarah", "חיי שרה"),
  ("Vayeitzei", "ויצא"), ("Ki Sisa", "כי תשא"),
  ("Acharei Mot", "אחרי מות"), ("Bechukosai", "בחוקותי"),
  ("Beha" ++ apoStr ++ "aloscha", "בהעלותך"), ("Shlach", "שלח"),
  ("Chukas", "חוקת"), ("Matos", "מטות"),
  ("Mas" ++ apoStr ++ "ei", "מסעי"),
  ("Va" ++ apoStr ++ "eschanan", "ואתחנן"),
  ("Re" ++ apoStr ++ "e", "ראה"), ("Ki Seitzei", "כי תצא"),
  ("Ki Savo", "כי תבוא"), ("Vayeilech", "וילך"), ("Haazinu", "האזינו"),
  ("Ha" ++ apoStr ++ "azinu", "האזינו"),
  ("Ha" ++ apoStr ++ "Azinu", "האזינו"),
  ("V" ++ apoStr ++ "Zot HaBerachah", "וזאת הברכה"),
  ("Vzot Haberachah", "וזאת הברכה"),
  ("Vayakhel-Pekudei", "ויקהל-פקודי"), ("Vayakhel-Pekudey", "ויקהל-פקודי"),
  ("Tazria-Metzora", "תזריע-מצורע"), ("Tazria-Metsora", "תזריע-מצורע"),
  ("Achrei Mot-Kedoshim", "אחרי מות-קדושים"),
  ("Acharei Mot-Kedoshim", "אחרי מות-קדושים"),
  ("Behar-Bechukotai", "בהר-בחוקותי"), ("Behar-Bechukosai", "בהר-בחוקותי"),
  ("Chukat-Balak", "חוקת-בלק"), ("Chukas-Balak", "חוקת-בלק"),
  ("Matot-Masei", "מטות-מסעי"), ("Matos-Masei", "מטות-מסעי"),
  ("Matot-Mas" ++ apoStr ++ "ei", "מטות-מסעי"),
  ("Nitzavim-Vayelech", "נצבים-וילך"),
  ("Nitzavim-Vayeilech", "נצבים-וילך")]

/-- Embedding of `_normalize_parsha_key` (make_shabbat_posts.py lines
91-93): lowercase, then remove apostrophes, hyphens and spaces. -/
def _normalize_parsha_key (name : String) : String :=
  removeChar (' ') (removeChar ('-') (removeChar apoChar (lowerStr name)))

/-- The `_PARASHA_EXACT_LOOKUP` table: keys lowercased.  Colliding lowered
keys carry equal values in the source table, so association-list lookup
agrees with the Python dict comprehension. -/
def exactLookup (key : String) : Option String :=
  (PARASHA_TRANSLATION.map (fun p => (lowerStr p.1, p.2))).lookup key

/-- The `_PARASHA_NORMALIZED_LOOKUP` table: keys normalized.  Colliding
normalized keys carry equal values in the source table. -/
def normalizedLookup (key : String) : Option String :=
  (PARASHA_TRANSLATION.map (fun p => (_normalize_parsha_key p.1, p.2))).lookup key

/-- Normalization of curly apostrophes (U+2019, U+2018) to the plain one,
the first step of `translate_parsha`. -/
def cleanAposStr (s : String) : String :=
  replaceChar curlyLeftChar apoChar (replaceChar curlyRightChar apoChar s)

/-- The display prefix of every `translate_parsha` result:
`f"פרשת {...}"`. -/
def hebParshaTag : String := "פרשת "

/-- Embedding of `translate_parsha(english_name)` (make_shabbat_posts.py
lines 215-242): exact case-insensitive lookup, then normalized lookup, then
fall back to the (apostrophe-normalized) input, always with the display
prefix. -/
def translate_parsha (english_name : String) : String :=
  let clean_name := cleanAposStr english_name
  match exactLookup (lowerStr clean_name) with
  | some hebrew => hebParshaTag ++ hebrew
  | none =>
    match normalizedLookup (_normalize_parsha_key clean_name) with
    | some hebrew => hebParshaTag ++ hebrew
    | none => hebParshaTag ++ clean_name

/-- One entry of the `items` list of a Hebcal API response; `.get` of a
possibly missing key is an `Option`. -/
structure HebItem where
  category : Option String
  date : Option String
  title : Option String
deriving DecidableEq

/-- A parsed Hebcal API response; the code only reads
`data.get("items", [])`.  Python's `if not data:` falsiness of the response
dict is modelled by absence (`Option HebData`): a parsed year response is a
nonempty dict. -/
structure HebData where
  items : List HebItem
deriving DecidableEq

/-- The module-level `_hebcal_cache` dict of hebcal_api.py together with an
instrumentation counter for the number of `requests.get` calls
performed. -/
structure HState where
  cache : List (Int × HebData)
  fetches : Nat
deriving DecidableEq

/-- Embedding of `_get_hebcal_data_for_year(year)` (hebcal_api.py lines
27-54).  The network is the oracle `fetch` (an exception is `Except.error`);
the cache dict is threaded explicitly and the counter records the request.
On success the data is stored in the cache; the `except` branch returns
`None` without storing anything. -/
def _get_hebcal_data_for_year (fetch : Int → Except String HebData)
    (st : HState) (year : Int) : Option HebData × HState :=
  match st.cache.lookup year with
  | some d => (some d, st)
  | none =>
    match fetch year with
    | Except.ok data => (some data, ⟨(year, data) :: st.cache, st.fetches + 1⟩)
    | Except.error _ => (none, ⟨st.cache, st.fetches + 1⟩)

/-- Embedding of `_get_saturday_for_date(target_date)` (hebcal_api.py lines
106-111). -/
def _get_saturday_for_date (target : Int) : Int :=
  let days_until_saturday := (5 - weekday target) % 7
  if days_until_saturday = 0 ∧ weekday target = 5 then target
  else target + days_until_saturday

/-- Loop of `_find_parsha_for_date`: the first item of category `parashat`
whose date string equals the target Saturday's isoformat; its (possibly
missing) title is returned. -/
def findParshaLoop (satStr : String) : List HebItem → Option String
  | [] => none
  | it :: rest =>
    if it.category = some ("parashat") ∧ it.date = some satStr then it.title
    else findParshaLoop satStr rest

/-- Embedding of `_find_parsha_for_date(data, saturday)` (hebcal_api.py
lines 124-130); `iso` is the `date.isoformat` oracle. -/
def _find_parsha_for_date (iso : Int → String) (data : HebData)
    (saturday : Int) : Option String :=
  findParshaLoop (iso saturday) data.items

/-- The `closest_date is None or item_date > closest_date` test. -/
def beatsClosest (cd : Option Int) (d : Int) : Bool :=
  match cd with
  | none => true
  | some c => decide (c < d)

/-- Loop of `_find_closest_parsha_before_date` with its two accumulators
`closest_date` and `closest_parsha`; `parseDate` is the
`date.fromisoformat` oracle (`none` models `ValueError`). -/
def closestLoop (parseDate : String → Option Int) (saturday : Int) :
    List HebItem → Option Int → Option String → Option String
  | [], _, cp => cp
  | it :: rest, cd, cp =>
    if ¬ it.category = some ("parashat") then
      closestLoop parseDate saturday rest cd cp
    else
      let ds := it.date.getD ("")
      if ds = "" then closestLoop parseDate saturday rest cd cp
      else
        match parseDate ds with
        | none => closestLoop parseDate saturday rest cd cp
        | some d =>
          if decide (d ≤ saturday) && beatsClosest cd d then
            closestLoop parseDate saturday rest (some d) it.title
          else closestLoop parseDate saturday rest cd cp

/-- Embedding of `_find_closest_parsha_before_date(data, saturday)`
(hebcal_api.py lines 133-152). -/
def _find_closest_parsha_before_date (parseDate : String → Option Int)
    (data : HebData) (saturday : Int) : Option String :=
  closestLoop parseDate saturday data.items none none

/-- The date under which an item participates in the closest-before search:
`some d` iff the item has category `parashat`, a nonempty date string that
parses to `d`, and `d` is on or before the target Saturday. -/
def entryDate (parseDate : String → Option Int) (saturday : Int)
    (it : HebItem) : Option Int :=
  if it.category = some ("parashat") ∧ ¬ it.date.getD ("") = "" then
    match parseDate (it.date.getD ("")) with
    | some d => if d ≤ saturday then some d else none
    | none => none
  else none

/-- The fixed festival reading `"פרשת וזאת הברכה"`. -/
def hebVezotStr : String := "פרשת וזאת הברכה"

/-- The holiday special case at the top of `get_parsha_from_hebcal`
(hebcal_api.py lines 75-81): a Yom Tov name containing "Simchat Tora",
"Hoshana Rabba" or "Chol HaMoed" yields the fixed reading. -/
def parshaSpecialCase (j : CalendarDay) : Option String :=
  if j.hasEvents then
    match j.yomtov with
    | some nm =>
      if strContains nm ("Simchat Tora") || strContains nm ("Hoshana Rabba") ||
          strContains nm ("Chol HaMoed") then some hebVezotStr
      else none
    | none => none
  else none

/-- The `parsha_title.replace("Parashat ", "").strip()` cleanup followed by
translation. -/
def cleanTitleTranslate (t : String) : String :=
  translate_parsha ((t.replace ("Parashat ") ("")).trim)

/-- The closest-before fallback step of `get_parsha_from_hebcal`: a truthy
(present and nonempty) title is cleaned and translated. -/
def parshaClosestStep (parseDate : String → Option Int) (data : HebData)
    (saturday : Int) : Option String :=
  match _find_closest_parsha_before_date parseDate data saturday with
  | some t => if ¬ t = "" then some (cleanTitleTranslate t) else none
  | none => none

/-- The lookup part of `get_parsha_from_hebcal` once the year data is at
hand: exact date match first (Python's `if parsha_title:` is truthiness,
so a missing or empty title falls through), then the closest-before
fallback. -/
def parshaFromData (iso : Int → String) (parseDate : String → Option Int)
    (data : HebData) (saturday : Int) : Option String :=
  match _find_parsha_for_date iso data saturday with
  | some t =>
    if ¬ t = "" then some (cleanTitleTranslate t)
    else parshaClosestStep parseDate data saturday
  | none => parshaClosestStep parseDate data saturday

/-- Embedding of `get_parsha_from_hebcal(target_date)` (hebcal_api.py lines
62-103; make_shabbat_posts.py lines 554-598 differ only in fetching without
the year cache and wrapping the same lookups in its own try/except).
Oracles: `cal` for `JewCal(...)`, `yearOf` for `date.year`, `iso` for
`date.isoformat`, `parseDate` for `date.fromisoformat`, `fetch` for the
network request. -/
def get_parsha_from_hebcal (cal : Int → CalendarDay) (yearOf : Int → Int)
    (iso : Int → String) (parseDate : String → Option Int)
    (fetch : Int → Except String HebData) (st : HState) (target : Int) :
    Option String × HState :=
  match parshaSpecialCase (cal target) with
  | some p => (some p, st)
  | none =>
    let saturday := _get_saturday_for_date target
    match _get_hebcal_data_for_year fetch st (yearOf saturday) with
    | (none, st2) => (none, st2)
    | (some data, st2) => (parshaFromData iso parseDate data saturday, st2)

/-- A fetch oracle that always fails (network timeout). -/
def failFetch : Int → Except String HebData := fun _ =>
  Except.error ("timeout")

/-- A fetch oracle that always succeeds with an empty item list. -/
def okFetch : Int → Except String HebData := fun _ => Except.ok ⟨[]⟩

/-- The process-start cache state: empty dict, no requests performed. -/
def emptyHState : HState := ⟨[], 0⟩

/-- A calendar oracle with no events on any day. -/
def calNoEvents : Int → CalendarDay := fun _ => ⟨false, none, none, none⟩

/-- A calendar oracle where every day is Simchat Torah. -/
def calSimchat : Int → CalendarDay := fun _ =>
  ⟨true, some Action.Candles, some ("Simchat Tora"), none⟩

/-- Degenerate date-attribute oracles for the witnesses. -/
def yearDemo : Int → Int := fun _ => 2025

def isoDemo : Int → String := fun _ => ""

def parseDemo : String → Option Int := fun _ => none

/-- A parse oracle recognizing two date strings, for the closest-before
witness. -/
def parseDemo2 : String → Option Int := fun s =>
  if s = "a" then some 3 else if s = "b" then some 5 else none

/-- Three items: two parashat entries dated `a` (day 3) and `b` (day 5) and
one non-parashat entry. -/
def dataDemo : HebData := ⟨[
  ⟨some ("parashat"), some ("a"), some ("Parashat Foo")⟩,
  ⟨some ("parashat"), some ("b"), some ("Parashat Bar")⟩,
  ⟨some ("holiday"), some ("b"), some ("X")⟩]⟩

theorem qualifying_hasEvents {c : CalendarDay} (h : qualifying c = true) :
    c.hasEvents = true := by
  simp only [qualifying, Bool.and_eq_true, Bool.or_eq_true, decide_eq_true_eq] at h
  exact h.1

theorem qualifying_action {c : CalendarDay} (h : qualifying c = true) :
    c.action = some Action.Candles ∨ c.action = some Action.Havdalah := by
  simp only [qualifying, Bool.and_eq_true, Bool.or_eq_true, decide_eq_true_eq] at h
  exact h.2

theorem qualifying_not_havdalah {c : CalendarDay} (h : qualifying c = true)
    (h2 : ¬ c.action = some Action.Havdalah) :
    c.action = some Action.Candles := by
  rcases qualifying_action h with h3 | h3
  · exact h3
  · exact absurd h3 h2

theorem seqStartWalk_spec (cal : Int → CalendarDay) :
    ∀ (fuel : Nat) (current s : Int), seqStartWalk cal fuel current = some s →
      s ≤ current ∧ ∀ x : Int, s ≤ x → x < current →
        (cal x).action = some Action.Candles ∧ qualifying (cal x) = true := by
  intro fuel
  induction fuel with
  | zero =>
    intro current s h
    simp [seqStartWalk] at h
  | succ n ih =>
    intro current s h
    simp only [seqStartWalk] at h
    split at h
    · split at h
      · rename_i hh
        injection h with h
        subst h
        refine ⟨le_refl _, ?_⟩
        intro x hx1 hx2
        exact absurd hx2 (by omega)
      · rename_i hq hh
        obtain ⟨ih1, ih2⟩ := ih (current - 1) s h
        refine ⟨by omega, ?_⟩
        intro x hx1 hx2
        rcases lt_or_ge x (current - 1) with hx | hx
        · exact ih2 x hx1 hx
        · have hxe : x = current - 1 := by omega
          subst hxe
          exact ⟨qualifying_not_havdalah hq hh, hq⟩
    · injection h with h
      subst h
      refine ⟨le_refl _, ?_⟩
      intro x hx1 hx2
      exact absurd hx2 (by omega)

theorem seqEndWalk_spec (cal : Int → CalendarDay) :
    ∀ (fuel : Nat) (current seqEnd : Int) (ty nm : Option String)
      (e : Int) (ty2 nm2 : Option String),
      qualifying (cal current) = true →
      seqEndWalk cal fuel current seqEnd ty nm = some (e, ty2, nm2) →
      current ≤ e ∧ (∀ x : Int, current ≤ x → x ≤ e → qualifying (cal x) = true) ∧
        (∀ x : Int, current ≤ x → x < e → ¬ (cal x).action = some Action.Havdalah) := by
  intro fuel
  induction fuel with
  | zero =>
    intro current seqEnd ty nm e ty2 nm2 hq h
    simp [seqEndWalk] at h
  | succ n ih =>
    intro current seqEnd ty nm e ty2 nm2 hq h
    simp only [seqEndWalk] at h
    split at h
    · split at h
      · rename_i hev hqn
        split at h
        · simp only [Option.some.injEq, Prod.mk.injEq] at h
          obtain ⟨he, -⟩ := h
          subst he
          refine ⟨le_refl _, ?_, ?_⟩
          · intro x hx1 hx2
            have hxe : x = current := by omega
            subst hxe
            exact hq
          · intro x hx1 hx2
            exact absurd hx2 (by omega)
        · rename_i hh
          obtain ⟨ih1, ih2, ih3⟩ :=
            ih (current + 1) current _ _ e ty2 nm2 hqn h
          refine ⟨by omega, ?_, ?_⟩
          · intro x hx1 hx2
            rcases eq_or_lt_of_le hx1 with hxe | hxlt
            · rw [← hxe]; exact hq
            · exact ih2 x (by omega) hx2
          · intro x hx1 hx2
            rcases eq_or_lt_of_le hx1 with hxe | hxlt
            · rw [← hxe]; exact hh
            · exact ih3 x (by omega) hx2
      · simp only [Option.some.injEq, Prod.mk.injEq] at h
        obtain ⟨he, -⟩ := h
        subst he
        refine ⟨le_refl _, ?_, ?_⟩
        · intro x hx1 hx2
          have hxe : x = current := by omega
          subst hxe
          exact hq
        · intro x hx1 hx2
          exact absurd hx2 (by omega)
    · rename_i hev
      exact absurd (qualifying_hasEvents hq) hev

/-- C1: for every trigger date whose `CalendarDay` has a qualifying action
(Candles or Havdalah), the sequence returned by `find_event_sequence`
satisfies `start_date ≤ end_date`, every date in the closed range
`[start_date, end_date]` has a qualifying action, and only the final date
may carry the action Havdalah (all non-final dates carry a non-Havdalah
qualifying action). -/
theorem find_event_sequence_invariant (cal : Int → CalendarDay) (fuel : Nat)
    (d s e : Int) (ty nm : Option String)
    (hq : qualifying (cal d) = true)
    (h : find_event_sequence cal fuel d = some (s, e, ty, nm)) :
    s ≤ e ∧ (∀ x : Int, s ≤ x → x ≤ e → qualifying (cal x) = true) ∧
      (∀ x : Int, s ≤ x → x < e → ¬ (cal x).action = some Action.Havdalah) := by
  unfold find_event_sequence at h
  cases hsw : seqStartWalk cal fuel d with
  | none => rw [hsw] at h; simp at h
  | some s0 =>
    rw [hsw] at h
    cases hew : seqEndWalk cal fuel d d none none with
    | none => rw [hew] at h; simp at h
    | some r =>
      obtain ⟨e0, ty0, nm0⟩ := r
      rw [hew] at h
      simp only [Option.some.injEq, Prod.mk.injEq] at h
      obtain ⟨hs, he, -, -⟩ := h
      subst hs
      subst he
      obtain ⟨h1, h2⟩ := seqStartWalk_spec cal fuel d s0 hsw
      obtain ⟨h3, h4, h5⟩ := seqEndWalk_spec cal fuel d d none none e0 ty0 nm0 hq hew
      refine ⟨by omega, ?_, ?_⟩
      · intro x hx1 hx2
        rcases lt_or_ge x d with hx | hx
        · exact (h2 x hx1 hx).2
        · exact h4 x hx hx2
      · intro x hx1 hx2
        rcases lt_or_ge x d with hx | hx
        · have hc := (h2 x hx1 hx).1
          rw [hc]
          decide
        · exact h5 x hx hx2

/-- Witness for C1: the two-day calendar `calDemo` (Candles on day 0,
Havdalah on day 1) instantiates `find_event_sequence_invariant`. -/
theorem find_event_sequence_invariant_witness :
    qualifying (calDemo 0) = true ∧
    find_event_sequence calDemo 8 0 =
      some (0, 1, some ("shabbos"), some ("Shabbos")) ∧
    ((0 : Int) ≤ 1 ∧
      (∀ x : Int, 0 ≤ x → x ≤ 1 → qualifying (calDemo x) = true) ∧
      (∀ x : Int, 0 ≤ x → x < 1 → ¬ (calDemo x).action = some Action.Havdalah)) :=
  ⟨by decide, by decide,
    find_event_sequence_invariant calDemo 8 0 0 1 (some ("shabbos"))
      (some ("Shabbos")) (by decide) (by decide)⟩

theorem scan14_found (cal : Int → CalendarDay) :
    ∀ (n : Nat) (start t : Int), start ≤ t → t - start < n →
      qualifying (cal t) = true →
      (∀ u : Int, start ≤ u → u < t → qualifying (cal u) = false) →
      scan14 cal n start = some t := by
  intro n
  induction n with
  | zero =>
    intro start t h1 h2 hq hmin
    exact absurd h2 (by omega)
  | succ m ih =>
    intro start t h1 h2 hq hmin
    rcases eq_or_lt_of_le h1 with he | hlt
    · subst he
      simp [scan14, hq]
    · have h0 : qualifying (cal start) = false := hmin start (le_refl _) hlt
      have hrec := ih (start + 1) t (by omega) (by omega) hq
        (fun u hu1 hu2 => hmin u (by omega) hu2)
      simp [scan14, h0, hrec]

theorem scan14_none (cal : Int → CalendarDay) :
    ∀ (n : Nat) (start : Int),
      (∀ u : Int, start ≤ u → u < start + n → qualifying (cal u) = false) →
      scan14 cal n start = none := by
  intro n
  induction n with
  | zero => intro start hall; simp [scan14]
  | succ m ih =>
    intro start hall
    have h0 : qualifying (cal start) = false :=
      hall start (le_refl _) (by push_cast; omega)
    have hrec := ih (start + 1) (fun u hu1 hu2 => hall u (by omega) (by push_cast at hu2 ⊢; omega))
    simp [scan14, h0, hrec]

/-- C4: `find_next_sequence` returns `find_event_sequence` applied to the
first date among offsets 0..13 from the start whose day has a qualifying
action; if no such date exists in the 14-day window, it returns
`find_event_sequence` applied to `next_friday start`, where `next_friday`
returns the first Friday (weekday 4) on or after the given date, except
that on a Friday with current local hour ≥ 12 it returns the Friday one
week later. -/
theorem find_next_sequence_spec (cal : Int → CalendarDay) (nowHour : Int)
    (fuel : Nat) (start : Int) :
    (∀ t : Int, start ≤ t → t < start + 14 → qualifying (cal t) = true →
      (∀ u : Int, start ≤ u → u < t → qualifying (cal u) = false) →
      find_next_sequence cal nowHour fuel start = find_event_sequence cal fuel t) ∧
    ((∀ u : Int, start ≤ u → u < start + 14 → qualifying (cal u) = false) →
      find_next_sequence cal nowHour fuel start =
        find_event_sequence cal fuel (next_friday nowHour start)) ∧
    (weekday start = 4 → 12 ≤ nowHour → next_friday nowHour start = start + 7) ∧
    (¬ (weekday start = 4 ∧ 12 ≤ nowHour) →
      weekday (next_friday nowHour start) = 4 ∧
      start ≤ next_friday nowHour start ∧
      ∀ g : Int, start ≤ g → weekday g = 4 → next_friday nowHour start ≤ g) := by
  refine ⟨?_, ?_, ?_, ?_⟩
  · intro t h1 h2 hq hmin
    unfold find_next_sequence
    rw [scan14_found cal 14 start t h1 (by omega) hq hmin]
  · intro hall
    unfold find_next_sequence
    rw [scan14_none cal 14 start (fun u hu1 hu2 => hall u hu1 (by push_cast at hu2; omega))]
  · intro h4 h12
    simp only [next_friday, weekday] at h4 ⊢
    split
    · rfl
    · rename_i hc
      exact absurd ⟨by omega, h12⟩ hc
  · intro hne
    simp only [weekday] at hne
    refine ⟨?_, ?_, ?_⟩
    · simp only [next_friday, weekday]
      split
      · rename_i hc
        exact absurd (And.intro (show start % 7 = 4 by omega) hc.2) hne
      · omega
    · simp only [next_friday, weekday]
      split
      · omega
      · omega
    · intro g hg1 hg2
      simp only [weekday] at hg2
      simp only [next_friday, weekday]
      split
      · rename_i hc
        exact absurd (And.intro (show start % 7 = 4 by omega) hc.2) hne
      · omega

/-- Witness for C4: on `calDemo`, scanning from day -3 finds the qualifying
day 0 and delegates to `find_event_sequence` there. -/
theorem find_next_sequence_spec_witness :
    qualifying (calDemo 0) = true ∧
    find_next_sequence calDemo 13 8 (-3) = find_event_sequence calDemo 8 0 := by
  refine ⟨by decide, ?_⟩
  refine (find_next_sequence_spec calDemo 13 8 (-3)).1 0 (by decide) (by decide)
    (by decide) ?_
  intro u h1 h2
  have hu : u = -3 ∨ u = -2 ∨ u = -1 := by omega
  rcases hu with h | h | h <;> subst h <;> decide

/-- C2: `jewcal_times_for_sequence` takes the candle-lighting time from the
zmanim of the start date and the havdalah time from the zmanim of the end
date, and from no other day of the sequence: the two times are exactly the
extractions from those two days, and they are unchanged under any change of
the jewcal oracle (and of the parsha oracle) that preserves those two
days. -/
theorem jewcal_times_for_sequence_anchors
    (jewcalAt jewcalAt2 : Int → Location → JDay)
    (get_parsha get_parsha2 : Int → Option String) (lat lon : Rat)
    (start_date end_date candle_offset : Int)
    (hs : jewcalAt2 start_date (mkLocation lat lon candle_offset) =
      jewcalAt start_date (mkLocation lat lon candle_offset))
    (he : jewcalAt2 end_date (mkLocation lat lon candle_offset) =
      jewcalAt end_date (mkLocation lat lon candle_offset)) :
    (jewcal_times_for_sequence jewcalAt get_parsha lat lon start_date
        end_date candle_offset).candle =
      candleFromDay (jewcalAt start_date (mkLocation lat lon candle_offset)) ∧
    (jewcal_times_for_sequence jewcalAt get_parsha lat lon start_date
        end_date candle_offset).havdalah =
      havdalahFromDay (jewcalAt end_date (mkLocation lat lon candle_offset)) ∧
    (jewcal_times_for_sequence jewcalAt2 get_parsha2 lat lon start_date
        end_date candle_offset).candle =
      (jewcal_times_for_sequence jewcalAt get_parsha lat lon start_date
        end_date candle_offset).candle ∧
    (jewcal_times_for_sequence jewcalAt2 get_parsha2 lat lon start_date
        end_date candle_offset).havdalah =
      (jewcal_times_for_sequence jewcalAt get_parsha lat lon start_date
        end_date candle_offset).havdalah := by
  refine ⟨rfl, rfl, ?_, ?_⟩ <;>
    simp only [jewcal_times_for_sequence, hs, he]

/-- Witness for C2 at the concrete oracle `jdemoA`. -/
theorem jewcal_times_for_sequence_anchors_witness :
    (jewcal_times_for_sequence jdemoA parshaNone 0 0 0 1 40).candle =
      candleFromDay (jdemoA 0 (mkLocation 0 0 40)) ∧
    (jewcal_times_for_sequence jdemoA parshaNone 0 0 0 1 40).havdalah =
      havdalahFromDay (jdemoA 1 (mkLocation 0 0 40)) ∧
    (jewcal_times_for_sequence jdemoA parshaNone 0 0 0 1 40).candle =
      (jewcal_times_for_sequence jdemoA parshaNone 0 0 0 1 40).candle ∧
    (jewcal_times_for_sequence jdemoA parshaNone 0 0 0 1 40).havdalah =
      (jewcal_times_for_sequence jdemoA parshaNone 0 0 0 1 40).havdalah :=
  jewcal_times_for_sequence_anchors jdemoA jdemoA parshaNone parshaNone
    0 0 0 1 40 rfl rfl

/-- C3: the havdalah time of a sequence is the stars-visible value
(`tzeis_hakochavim`) of the end date whenever it is present, and only when
it is absent the fixed-minutes value (`tzeis_minutes`) is used; the
location handed to the jewcal library is configured with
`use_tzeis_hakochavim = True` and the fixed offset `tzeis_minutes = 42`. -/
theorem jewcal_times_for_sequence_havdalah_pref
    (jewcalAt : Int → Location → JDay) (get_parsha : Int → Option String)
    (lat lon : Rat) (start_date end_date candle_offset : Int) :
    (∀ z : Zmanim,
      (jewcalAt end_date (mkLocation lat lon candle_offset)).zmanim = some z →
      (∀ t : String, z.tzeis_hakochavim = some t →
        (jewcal_times_for_sequence jewcalAt get_parsha lat lon start_date
          end_date candle_offset).havdalah = some t) ∧
      (z.tzeis_hakochavim = none →
        (jewcal_times_for_sequence jewcalAt get_parsha lat lon start_date
          end_date candle_offset).havdalah = z.tzeis_minutes)) ∧
    ((jewcalAt end_date (mkLocation lat lon candle_offset)).zmanim = none →
      (jewcal_times_for_sequence jewcalAt get_parsha lat lon start_date
        end_date candle_offset).havdalah = none) ∧
    (mkLocation lat lon candle_offset).tzeis_minutes = 42 ∧
    (mkLocation lat lon candle_offset).use_tzeis_hakochavim = true := by
  refine ⟨?_, ?_, rfl, rfl⟩
  · intro z hz
    constructor
    · intro t ht
      simp only [jewcal_times_for_sequence, hz, ht]
    · intro ht
      simp only [jewcal_times_for_sequence, hz, ht]
      cases hm : z.tzeis_minutes <;> simp [hm]
  · intro hz
    simp only [jewcal_times_for_sequence, hz]

/-- Witness for C3: on `jdemoA`, day 1 has no `hadlokas_haneiros` but a
stars-visible value, which is the havdalah of the sequence; the location is
built with the 42-minute fallback. -/
theorem jewcal_times_for_sequence_havdalah_pref_witness :
    (jewcal_times_for_sequence jdemoA parshaNone 0 0 0 1 40).havdalah =
      some ("h1") ∧
    (mkLocation 0 0 40).tzeis_minutes = 42 ∧
    (mkLocation 0 0 40).use_tzeis_hakochavim = true :=
  ⟨((jewcal_times_for_sequence_havdalah_pref jdemoA parshaNone 0 0 0 1
      40).1 ⟨none, some ("h1"), some ("m1")⟩ (by decide)).1 ("h1") rfl,
    (jewcal_times_for_sequence_havdalah_pref jdemoA parshaNone 0 0 0 1
      40).2.2.1,
    (jewcal_times_for_sequence_havdalah_pref jdemoA parshaNone 0 0 0 1
      40).2.2.2⟩

theorem classifyEventJ_noEvents {j : JDay} (h : j.hasEvents = false) :
    classifyEventJ j = (none, none) := by
  simp [classifyEventJ, h]

/-- C10: the reported `event_type`/`event_name` of
`jewcal_times_for_sequence` come from the end date exactly when the end
date's event name contains "Simchat Tora" or "Shmini Atzeret"; in every
other case they come from the start date alone, so in those cases both are
`none` whenever the start date has no events, even if the end date has
events. -/
theorem jewcal_times_for_sequence_event_source
    (jewcalAt : Int → Location → JDay) (get_parsha : Int → Option String)
    (lat lon : Rat) (start_date end_date candle_offset : Int) :
    (∀ n : String,
      (classifyEventJ (jewcalAt end_date (mkLocation lat lon candle_offset))).2 =
        some n →
      (strContains n ("Simchat Tora") || strContains n ("Shmini Atzeret")) = true →
      (jewcal_times_for_sequence jewcalAt get_parsha lat lon start_date
        end_date candle_offset).event_type =
        (classifyEventJ (jewcalAt end_date (mkLocation lat lon candle_offset))).1 ∧
      (jewcal_times_for_sequence jewcalAt get_parsha lat lon start_date
        end_date candle_offset).event_name = some n) ∧
    (∀ n : String,
      (classifyEventJ (jewcalAt end_date (mkLocation lat lon candle_offset))).2 =
        some n →
      (strContains n ("Simchat Tora") || strContains n ("Shmini Atzeret")) = false →
      (jewcal_times_for_sequence jewcalAt get_parsha lat lon start_date
        end_date candle_offset).event_type =
        (classifyEventJ (jewcalAt start_date (mkLocation lat lon candle_offset))).1 ∧
      (jewcal_times_for_sequence jewcalAt get_parsha lat lon start_date
        end_date candle_offset).event_name =
        (classifyEventJ (jewcalAt start_date (mkLocation lat lon candle_offset))).2) ∧
    ((classifyEventJ (jewcalAt end_date (mkLocation lat lon candle_offset))).2 =
        none →
      (jewcal_times_for_sequence jewcalAt get_parsha lat lon start_date
        end_date candle_offset).event_type =
        (classifyEventJ (jewcalAt start_date (mkLocation lat lon candle_offset))).1 ∧
      (jewcal_times_for_sequence jewcalAt get_parsha lat lon start_date
        end_date candle_offset).event_name =
        (classifyEventJ (jewcalAt start_date (mkLocation lat lon candle_offset))).2) ∧
    ((jewcalAt start_date (mkLocation lat lon candle_offset)).hasEvents = false →
      (∀ n : String,
        (classifyEventJ (jewcalAt end_date (mkLocation lat lon candle_offset))).2 =
          some n →
        (strContains n ("Simchat Tora") || strContains n ("Shmini Atzeret")) = false) →
      (jewcal_times_for_sequence jewcalAt get_parsha lat lon start_date
        end_date candle_offset).event_type = none ∧
      (jewcal_times_for_sequence jewcalAt get_parsha lat lon start_date
        end_date candle_offset).event_name = none) := by
  refine ⟨?_, ?_, ?_, ?_⟩
  · intro n hn hc
    constructor <;> simp only [jewcal_times_for_sequence, hn, hc, if_true]
  · intro n hn hc
    constructor <;>
      simp only [jewcal_times_for_sequence, hn, hc, Bool.false_eq_true,
        if_false]
  · intro hn
    constructor <;> simp only [jewcal_times_for_sequence, hn]
  · intro hs hno
    have hstart := classifyEventJ_noEvents hs
    cases hn : (classifyEventJ (jewcalAt end_date
        (mkLocation lat lon candle_offset))).2 with
    | none =>
      constructor <;> simp only [jewcal_times_for_sequence, hn, hstart]
    | some n =>
      have hc := hno n hn
      constructor <;>
        simp only [jewcal_times_for_sequence, hn, hc, Bool.false_eq_true,
          if_false, hstart]

/-- Witness for C10: on `jdemoB` the start day (day 0) has no events and the
end day (day 1) is Simchat Torah, so the event is reported from the end
date. -/
theorem jewcal_times_for_sequence_event_source_witness :
    (jewcal_times_for_sequence jdemoB parshaNone 0 0 0 1 40).event_type =
      some ("yomtov") ∧
    (jewcal_times_for_sequence jdemoB parshaNone 0 0 0 1 40).event_name =
      some ("Simchat Tora") := by
  have h := (jewcal_times_for_sequence_event_source jdemoB parshaNone
    0 0 0 1 40).1 ("Simchat Tora") (by decide) (by decide)
  exact ⟨h.1.trans (by decide), h.2⟩

/-- Counterexample for C5: with an always-failing fetch and an empty cache,
the first call for year 2025 returns `none` after one request, and a second
call for the same year performs a second request — the failure outcome is
not cached, contradicting "fetched at most once per year per process
lifetime, whether the fetch succeeds or fails". -/
theorem hebcal_failure_not_cached_cex :
    (_get_hebcal_data_for_year failFetch emptyHState 2025).1 = none ∧
    (_get_hebcal_data_for_year failFetch emptyHState 2025).2.fetches = 1 ∧
    (_get_hebcal_data_for_year failFetch
      (_get_hebcal_data_for_year failFetch emptyHState 2025).2
      2025).2.fetches = 2 := by
  decide

/-- C5 amended: a cache hit performs no request; a successful fetch for an
uncached year is stored, so the immediately following call for the same
year is a cache hit with no new request; a failed fetch for an uncached
year returns `none` cleanly (no exception escapes) but is not stored, so a
second call for the same year performs a new request. -/
theorem hebcal_cache_behavior (fetch : Int → Except String HebData)
    (st : HState) (year : Int) :
    (∀ d : HebData, st.cache.lookup year = some d →
      _get_hebcal_data_for_year fetch st year = (some d, st)) ∧
    (∀ d : HebData, st.cache.lookup year = none → fetch year = Except.ok d →
      _get_hebcal_data_for_year fetch st year =
        (some d, ⟨(year, d) :: st.cache, st.fetches + 1⟩) ∧
      _get_hebcal_data_for_year fetch
        (_get_hebcal_data_for_year fetch st year).2 year =
        (some d, (_get_hebcal_data_for_year fetch st year).2)) ∧
    (∀ msg : String, st.cache.lookup year = none →
      fetch year = Except.error msg →
      _get_hebcal_data_for_year fetch st year =
        (none, ⟨st.cache, st.fetches + 1⟩) ∧
      (_get_hebcal_data_for_year fetch
        (_get_hebcal_data_for_year fetch st year).2 year).2.fetches =
        st.fetches + 2) := by
  refine ⟨?_, ?_, ?_⟩
  · intro d hd
    simp [_get_hebcal_data_for_year, hd]
  · intro d h1 h2
    constructor
    · simp [_get_hebcal_data_for_year, h1, h2]
    · simp [_get_hebcal_data_for_year, h1, h2, List.lookup]
  · intro msg h1 h2
    constructor
    · simp [_get_hebcal_data_for_year, h1, h2]
    · simp [_get_hebcal_data_for_year, h1, h2]

/-- Witness for the amended C5 at concrete fetch oracles. -/
theorem hebcal_cache_behavior_witness :
    _get_hebcal_data_for_year okFetch emptyHState 2025 =
      (some ⟨[]⟩, ⟨[(2025, ⟨[]⟩)], 1⟩) ∧
    (_get_hebcal_data_for_year failFetch
      (_get_hebcal_data_for_year failFetch emptyHState 2025).2
      2025).2.fetches = emptyHState.fetches + 2 :=
  ⟨((hebcal_cache_behavior okFetch emptyHState 2025).2.1 ⟨[]⟩ rfl rfl).1,
    ((hebcal_cache_behavior failFetch emptyHState 2025).2.2 ("timeout")
      rfl rfl).2⟩

/-- C6: `get_parsha_from_hebcal` absorbs a failure of the year fetch: when
the holiday special case does not apply and the year is not cached, a fetch
exception yields the clean absent result `none` rather than propagating
(the embedded function is total, mirroring the `except` handler that
swallows every exception). -/
theorem get_parsha_absorbs_fetch_error (cal : Int → CalendarDay)
    (yearOf : Int → Int) (iso : Int → String)
    (parseDate : String → Option Int) (fetch : Int → Except String HebData)
    (st : HState) (target : Int) (msg : String)
    (h1 : parshaSpecialCase (cal target) = none)
    (h2 : st.cache.lookup (yearOf (_get_saturday_for_date target)) = none)
    (h3 : fetch (yearOf (_get_saturday_for_date target)) =
      Except.error msg) :
    (get_parsha_from_hebcal cal yearOf iso parseDate fetch st target).1 =
      none := by
  simp [get_parsha_from_hebcal, h1, _get_hebcal_data_for_year, h2, h3]

/-- Witness for C6: event-free calendar, empty cache, failing fetch. -/
theorem get_parsha_absorbs_fetch_error_witness :
    parshaSpecialCase (calNoEvents 0) = none ∧
    (get_parsha_from_hebcal calNoEvents yearDemo isoDemo parseDemo failFetch
      emptyHState 0).1 = none :=
  ⟨by decide,
    get_parsha_absorbs_fetch_error calNoEvents yearDemo isoDemo parseDemo
      failFetch emptyHState 0 ("timeout") (by decide) rfl rfl⟩

/-- C7: when the date's day carries a Yom Tov name containing
"Simchat Tora", "Hoshana Rabba" or "Chol HaMoed", `get_parsha_from_hebcal`
returns the fixed reading `"פרשת וזאת הברכה"` immediately with the state
untouched — in particular, no network request is performed (the request
counter is unchanged). -/
theorem get_parsha_special_case (cal : Int → CalendarDay)
    (yearOf : Int → Int) (iso : Int → String)
    (parseDate : String → Option Int) (fetch : Int → Except String HebData)
    (st : HState) (target : Int) (nm : String)
    (h1 : (cal target).hasEvents = true)
    (h2 : (cal target).yomtov = some nm)
    (h3 : (strContains nm ("Simchat Tora") ||
      strContains nm ("Hoshana Rabba") ||
      strContains nm ("Chol HaMoed")) = true) :
    get_parsha_from_hebcal cal yearOf iso parseDate fetch st target =
      (some hebVezotStr, st) ∧
    (get_parsha_from_hebcal cal yearOf iso parseDate fetch st
      target).2.fetches = st.fetches := by
  have hsp : parshaSpecialCase (cal target) = some hebVezotStr := by
    simp only [parshaSpecialCase, h1, h2, if_true, h3]
  constructor
  · simp [get_parsha_from_hebcal, hsp]
  · simp [get_parsha_from_hebcal, hsp]

/-- Witness for C7: on the Simchat Torah calendar, even a failing fetch
oracle is never consulted and the fixed reading is returned. -/
theorem get_parsha_special_case_witness :
    get_parsha_from_hebcal calSimchat yearDemo isoDemo parseDemo failFetch
      emptyHState 0 = (some hebVezotStr, emptyHState) ∧
    (get_parsha_from_hebcal calSimchat yearDemo isoDemo parseDemo failFetch
      emptyHState 0).2.fetches = emptyHState.fetches :=
  get_parsha_special_case calSimchat yearDemo isoDemo parseDemo failFetch
    emptyHState 0 ("Simchat Tora") rfl rfl (by decide)

theorem closestLoop_cons_none (parseDate : String → Option Int)
    (saturday : Int) (it : HebItem) (rest : List HebItem) (cd : Option Int)
    (cp : Option String) (he : entryDate parseDate saturday it = none) :
    closestLoop parseDate saturday (it :: rest) cd cp =
      closestLoop parseDate saturday rest cd cp := by
  simp only [entryDate] at he
  by_cases hcat : it.category = some ("parashat")
  · by_cases hds : it.date.getD ("") = ""
    · simp [closestLoop, hcat, hds]
    · rw [if_pos ⟨hcat, hds⟩] at he
      cases hp : parseDate (it.date.getD ("")) with
      | none => simp [closestLoop, hcat, hds, hp]
      | some d1 =>
        simp only [hp] at he
        by_cases hle : d1 ≤ saturday
        · rw [if_pos hle] at he
          exact Option.noConfusion he
        · simp only [closestLoop, hcat, not_true, if_false, hds, hp]
          have hfa : decide (d1 ≤ saturday) = false := by
            simp [hle]
          simp [hfa]
  · simp [closestLoop, hcat]

theorem closestLoop_cons_some (parseDate : String → Option Int)
    (saturday : Int) (it : HebItem) (rest : List HebItem) (cd : Option Int)
    (cp : Option String) (d : Int)
    (he : entryDate parseDate saturday it = some d) :
    closestLoop parseDate saturday (it :: rest) cd cp =
      if beatsClosest cd d then
        closestLoop parseDate saturday rest (some d) it.title
      else closestLoop parseDate saturday rest cd cp := by
  simp only [entryDate] at he
  by_cases hcat : it.category = some ("parashat")
  · by_cases hds : it.date.getD ("") = ""
    · simp [hcat, hds] at he
    · rw [if_pos ⟨hcat, hds⟩] at he
      cases hp : parseDate (it.date.getD ("")) with
      | none =>
        simp only [hp] at he
        exact Option.noConfusion he
      | some d1 =>
        simp only [hp] at he
        by_cases hle : d1 ≤ saturday
        · rw [if_pos hle] at he
          injection he with hdd
          subst hdd
          have htr : decide (d1 ≤ saturday) = true := by simp [hle]
          simp [closestLoop, hcat, hds, hp, htr]
        · rw [if_neg hle] at he
          exact Option.noConfusion he
  · simp [hcat] at he

theorem closestLoop_stays (parseDate : String → Option Int) (saturday : Int) :
    ∀ (items : List HebItem) (cd : Option Int) (cp : Option String),
      (∀ it ∈ items, ∀ d : Int, entryDate parseDate saturday it = some d →
        beatsClosest cd d = false) →
      closestLoop parseDate saturday items cd cp = cp := by
  intro items
  induction items with
  | nil => intro cd cp h; rfl
  | cons it rest ih =>
    intro cd cp h
    cases he : entryDate parseDate saturday it with
    | none =>
      rw [closestLoop_cons_none parseDate saturday it rest cd cp he]
      exact ih cd cp (fun x hx d hd => h x (List.mem_cons_of_mem it hx) d hd)
    | some d =>
      have hb := h it (List.mem_cons_self it rest) d he
      rw [closestLoop_cons_some parseDate saturday it rest cd cp d he]
      simp only [hb, Bool.false_eq_true, if_false]
      exact ih cd cp (fun x hx d2 hd2 => h x (List.mem_cons_of_mem it hx) d2 hd2)

theorem closestLoop_found (parseDate : String → Option Int) (saturday : Int) :
    ∀ (items : List HebItem) (cd : Option Int) (cp : Option String)
      (it0 : HebItem) (d0 : Int), it0 ∈ items →
      entryDate parseDate saturday it0 = some d0 →
      beatsClosest cd d0 = true →
      ∃ it ∈ items, ∃ d : Int, entryDate parseDate saturday it = some d ∧
        beatsClosest cd d = true ∧
        closestLoop parseDate saturday items cd cp = it.title ∧
        ∀ it2 ∈ items, ∀ d2 : Int,
          entryDate parseDate saturday it2 = some d2 → d2 ≤ d := by
  intro items
  induction items with
  | nil =>
    intro cd cp it0 d0 h0
    exact absurd h0 (List.not_mem_nil it0)
  | cons it rest ih =>
    intro cd cp it0 d0 hmem he0 hb0
    cases he : entryDate parseDate saturday it with
    | some d =>
      rw [closestLoop_cons_some parseDate saturday it rest cd cp d he]
      by_cases hbd : beatsClosest cd d = true
      · rw [if_pos hbd]
        by_cases hex : ∃ x, x ∈ rest ∧ ∃ dx : Int,
            entryDate parseDate saturday x = some dx ∧
            beatsClosest (some d) dx = true
        · obtain ⟨x, hx, dx, hdx, hbx⟩ := hex
          obtain ⟨y, hy, dy, hdy, hby, heq, hmax⟩ :=
            ih (some d) it.title x dx hx hdx hbx
          have hddy : d < dy := by simpa [beatsClosest] using hby
          refine ⟨y, List.mem_cons_of_mem it hy, dy, hdy, ?_, heq, ?_⟩
          · cases cd with
            | none => rfl
            | some c =>
              have h1 : c < d := by simpa [beatsClosest] using hbd
              simp only [beatsClosest, decide_eq_true_eq]
              omega
          · intro it2 hit2 d2 hd2
            rcases List.mem_cons.mp hit2 with h | h
            · rw [h] at hd2
              rw [hd2] at he
              injection he with hdd
              omega
            · exact hmax it2 h d2 hd2
        · have hnb : ∀ x ∈ rest, ∀ dx : Int,
              entryDate parseDate saturday x = some dx →
              beatsClosest (some d) dx = false := by
            intro x hx dx hdx
            cases hb2 : beatsClosest (some d) dx with
            | false => rfl
            | true => exact absurd ⟨x, hx, dx, hdx, hb2⟩ hex
          have hstay :=
            closestLoop_stays parseDate saturday rest (some d) it.title hnb
          refine ⟨it, List.mem_cons_self it rest, d, he, hbd, hstay, ?_⟩
          intro it2 hit2 d2 hd2
          rcases List.mem_cons.mp hit2 with h | h
          · rw [h] at hd2
            rw [hd2] at he
            injection he with hdd
            omega
          · have hf := hnb it2 h d2 hd2
            have h3 : ¬ (d < d2) := by simpa [beatsClosest] using hf
            omega
      · have hbd2 : beatsClosest cd d = false := by
          cases hb2 : beatsClosest cd d with
          | false => rfl
          | true => exact absurd hb2 hbd
        rw [if_neg hbd]
        have hmem2 : it0 ∈ rest := by
          rcases List.mem_cons.mp hmem with h | h
          · exfalso
            rw [h] at he0
            rw [he0] at he
            injection he with hdd
            rw [← hdd] at hbd2
            rw [hb0] at hbd2
            exact absurd hbd2 (by decide)
          · exact h
        obtain ⟨y, hy, dy, hdy, hby, heq, hmax⟩ :=
          ih cd cp it0 d0 hmem2 he0 hb0
        refine ⟨y, List.mem_cons_of_mem it hy, dy, hdy, hby, heq, ?_⟩
        intro it2 hit2 d2 hd2
        rcases List.mem_cons.mp hit2 with h | h
        · rw [h] at hd2
          rw [hd2] at he
          injection he with hdd
          cases cd with
          | none => simp [beatsClosest] at hbd2
          | some c =>
            have hdc : ¬ (c < d) := by simpa [beatsClosest] using hbd2
            have hcy : c < dy := by simpa [beatsClosest] using hby
            omega
        · exact hmax it2 h d2 hd2
    | none =>
      rw [closestLoop_cons_none parseDate saturday it rest cd cp he]
      have hmem2 : it0 ∈ rest := by
        rcases List.mem_cons.mp hmem with h | h
        · exfalso
          rw [h] at he0
          rw [he0] at he
          exact Option.noConfusion he
        · exact h
      obtain ⟨y, hy, dy, hdy, hby, heq, hmax⟩ :=
        ih cd cp it0 d0 hmem2 he0 hb0
      refine ⟨y, List.mem_cons_of_mem it hy, dy, hdy, hby, heq, ?_⟩
      intro it2 hit2 d2 hd2
      rcases List.mem_cons.mp hit2 with h | h
      · exfalso
        rw [h] at hd2
        rw [hd2] at he
        exact Option.noConfusion he
      · exact hmax it2 h d2 hd2

/-- C8: `_find_closest_parsha_before_date` returns exactly the title of a
parashat entry with a parsable date on or before the target Saturday whose
date is maximal among all such entries — and `none` when no such entry
exists; moreover, `get_parsha_from_hebcal` uses this fallback exactly when
the exact-date lookup produced nothing. -/
theorem find_closest_parsha_spec (parseDate : String → Option Int)
    (data : HebData) (saturday : Int) :
    ((∀ it ∈ data.items, entryDate parseDate saturday it = none) →
      _find_closest_parsha_before_date parseDate data saturday = none) ∧
    (∀ it0 ∈ data.items, ∀ d0 : Int,
      entryDate parseDate saturday it0 = some d0 →
      ∃ it ∈ data.items, ∃ d : Int,
        entryDate parseDate saturday it = some d ∧
        _find_closest_parsha_before_date parseDate data saturday = it.title ∧
        ∀ it2 ∈ data.items, ∀ d2 : Int,
          entryDate parseDate saturday it2 = some d2 → d2 ≤ d) ∧
    (∀ iso : Int → String, _find_parsha_for_date iso data saturday = none →
      parshaFromData iso parseDate data saturday =
        parshaClosestStep parseDate data saturday) := by
  refine ⟨?_, ?_, ?_⟩
  · intro h
    apply closestLoop_stays
    intro it hit d hd
    rw [h it hit] at hd
    exact Option.noConfusion hd
  · intro it0 hmem d0 he0
    obtain ⟨y, hy, dy, hdy, -, heq, hmax⟩ :=
      closestLoop_found parseDate saturday data.items none none it0 d0 hmem
        he0 rfl
    exact ⟨y, hy, dy, hdy, heq, hmax⟩
  · intro iso h
    simp [parshaFromData, h]

/-- Witness for C8 on `dataDemo`: among the two parashat entries dated day 3
and day 5 (both on or before Saturday day 10), the later one is selected. -/
theorem find_closest_parsha_spec_witness :
    (⟨some ("parashat"), some ("a"), some ("Parashat Foo")⟩ : HebItem) ∈
      dataDemo.items ∧
    entryDate parseDemo2 10
      ⟨some ("parashat"), some ("a"), some ("Parashat Foo")⟩ = some 3 ∧
    (∃ it ∈ dataDemo.items, ∃ d : Int, entryDate parseDemo2 10 it = some d ∧
      _find_closest_parsha_before_date parseDemo2 dataDemo 10 = it.title ∧
      ∀ it2 ∈ dataDemo.items, ∀ d2 : Int,
        entryDate parseDemo2 10 it2 = some d2 → d2 ≤ d) :=
  ⟨by decide, by decide,
    (find_closest_parsha_spec parseDemo2 dataDemo 10).2.1
      ⟨some ("parashat"), some ("a"), some ("Parashat Foo")⟩ (by decide) 3
      (by decide)⟩

/-- Counterexample for C9: the title "Xyzzy" has neither a case-insensitive
exact match nor a normalized-key match in the translation table, yet
`translate_parsha` does not pass the raw title through as its result — it
prepends the display prefix. -/
theorem translate_parsha_passthrough_cex :
    exactLookup (lowerStr (cleanAposStr ("Xyzzy"))) = none ∧
    normalizedLookup (_normalize_parsha_key (cleanAposStr ("Xyzzy"))) =
      none ∧
    ¬ translate_parsha ("Xyzzy") = ("Xyzzy") := by
  refine ⟨by decide, by decide, ?_⟩
  decide

/-- C9 amended: for every portion title with neither a case-insensitive
exact match nor a normalized-key match in the translation table,
`translate_parsha` passes the title through untranslated, only normalizing
curly apostrophes and prepending the fixed display prefix `"פרשת "` (which
every branch prepends). -/
theorem translate_parsha_no_match (english_name : String)
    (h1 : exactLookup (lowerStr (cleanAposStr english_name)) = none)
    (h2 : normalizedLookup (_normalize_parsha_key (cleanAposStr
      english_name)) = none) :
    translate_parsha english_name = hebParshaTag ++ cleanAposStr
      english_name := by
  simp only [translate_parsha, h1, h2]

/-- Witness for the amended C9 at the unmatched title "Xyzzy". -/
theorem translate_parsha_no_match_witness :
    exactLookup (lowerStr (cleanAposStr ("Xyzzy"))) = none ∧
    normalizedLookup (_normalize_parsha_key (cleanAposStr ("Xyzzy"))) =
      none ∧
    translate_parsha ("Xyzzy") = hebParshaTag ++ cleanAposStr ("Xyzzy") :=
  ⟨by decide, by decide,
    translate_parsha_no_match ("Xyzzy") (by decide) (by decide)⟩

end Shabat
